import Mathlib

/-!
# Verification of the audio-transcriber backend (src/backend/main.py)

Shallow embedding of the job-lifecycle core of the FastAPI service:
the in-memory job store (`transcription_jobs`), the upload endpoint
(`transcribe_audio`), the background task (`transcribe_audio_task`),
the delete endpoint (`delete_transcription_job`) and the shutdown
code of `lifespan`.

Modelling notes:
* The Python dict `transcription_jobs` is modelled as a function
  `String → Option Job`; `d[k] = v` / `d[k].update(...)` / `del d[k]`
  become `Store.set` / `Store.updateJob` / `Store.erase`;
  a lookup of a missing key is a `KeyError`, modelled with `Option`.
* The job record is a dict whose keys `status`, `filename`,
  `language`, `text`, `segments`, `error` we model as fields;
  an absent key is `none` (the Pydantic response model also renders
  an absent key as `null`).
* `asyncio.CancelledError` derives from `BaseException`, not from
  `Exception`, so the `except Exception` clause of
  `transcribe_audio_task` does not match it; the embedding keeps the
  two kinds of failures of the capability call apart.
* The filesystem holding temp files is a list of paths;
  `os.path.exists` / `os.remove` act on it.
-/

namespace AudioTranscriber

/-- Job status strings used by `main.py`: "queued", "processing",
"completed", "error". -/
inductive Status where
  | queued
  | processing
  | completed
  | error
deriving DecidableEq, Repr

/-- A transcription segment is opaque to the core (whatever
`result["segments"]` holds); we model it as a string. -/
abbrev Segment : Type := String

/-- The payload `model.transcribe` returns on success:
`result["text"]`, `result["segments"]`, `result["language"]`. -/
structure WhisperResult where
  text : String
  segments : List Segment
  language : String
deriving DecidableEq

/-- One entry of `transcription_jobs`.  `language` is the single dict
key `"language"`: it holds the caller's hint from creation and is
overwritten with the detected language on completion. -/
structure Job where
  status : Status
  filename : String
  language : Option String
  text : Option String
  segments : Option (List Segment)
  error : Option String
deriving DecidableEq

/-- The record `transcribe_audio` creates:
`{"status": "queued", "filename": ..., "language": language}`. -/
def newJob (filename : String) (hint : Option String) : Job :=
  { status := .queued
    filename := filename
    language := hint
    text := none
    segments := none
    error := none }

/-- The in-memory store `transcription_jobs` (a Python dict keyed by
job id). -/
def Store : Type := String → Option Job

/-- The empty store (server start). -/
def Store.empty : Store := fun _ => none

/-- `transcription_jobs[k] = j` (create or overwrite). -/
def Store.set (s : Store) (k : String) (j : Job) : Store :=
  fun i => if i = k then some j else s i

/-- `del transcription_jobs[k]` (the key is known to be present at the
call sites, which check `job_id not in transcription_jobs` first). -/
def Store.erase (s : Store) (k : String) : Store :=
  fun i => if i = k then none else s i

/-- A mutation of `transcription_jobs[k]` (item assignment on the
inner dict or `.update`): `none` models the `KeyError` raised when
the key is absent. -/
def Store.updateJob (s : Store) (k : String) (f : Job → Job) : Option Store :=
  match s k with
  | none => none
  | some j => some (s.set k (f j))

/-- Scratch storage holding the temp files, as the list of existing
paths. -/
abbrev FileSys : Type := List String

/-- `os.path.exists` on the model filesystem. -/
def FileSys.exists (fs : FileSys) (p : String) : Bool :=
  fs.contains p

/-- `os.remove` on the model filesystem (removes one entry; temp
paths are unique so at most one is present). -/
def FileSys.remove (fs : FileSys) (p : String) : FileSys :=
  fs.erase p

/-- The `finally` block of `transcribe_audio_task`:
`if os.path.exists(file_path): os.remove(file_path)`.
Returns the filesystem and the number of `os.remove` calls made. -/
def cleanupTemp (path : String) (fs : FileSys) : FileSys × Nat :=
  if fs.exists path then (fs.remove path, 1) else (fs, 0)

/-- An `HTTPException(status_code=..., detail=...)`. -/
structure HTTPError where
  status_code : Nat
  detail : String
deriving DecidableEq

/-- The `TranscriptionResponse` Pydantic model. -/
structure TranscriptionResponse where
  job_id : String
  status : String
  text : Option String := none
  segments : Option (List Segment) := none
  language : Option String := none
  error : Option String := none
deriving DecidableEq

/-- The allow-list literal `allowed_extensions` of `transcribe_audio`,
in source order. -/
def allowed_extensions : List String :=
  [".mp3", ".wav", ".m4a", ".mp4", ".avi", ".mov", ".flv", ".wmv", ".aac", ".ogg"]

/-- `os.path.splitext(p)[1]` (posix): the part of `p` from the last
dot, provided that dot lies after the last `/` and some character
strictly between the last `/` and the last dot is not a dot
(CPython `genericpath._splitext`).  Computed on the char list. -/
def splitextExtChars (p : List Char) : List Char :=
  let r := p.reverse
  let base := r.takeWhile (fun c => c ≠ '/')
  let afterDot := base.takeWhile (fun c => c ≠ '.')
  let rest := base.drop afterDot.length
  match rest with
  | [] => []
  | _ :: pre =>
    if pre.any (fun c => c ≠ '.') then '.' :: afterDot.reverse else []

/-- `os.path.splitext(p)[1]` on strings. -/
def splitextExt (p : String) : String :=
  ⟨splitextExtChars p.data⟩

/-- Python `str.lower()`, modelled character-wise with `Char.toLower`
(they agree on ASCII, which covers the allow-list and its
extensions). -/
def strLower (s : String) : String :=
  ⟨s.data.map Char.toLower⟩

/-- `os.path.splitext(file.filename)[1].lower()` — the extension the
endpoint validates. -/
def fileExtensionLower (filename : String) : String :=
  strLower (splitextExt filename)

/-- Membership test `file_extension not in allowed_extensions`
(negated): whether the lowercased extension is allowed. -/
def extensionAllowed (filename : String) : Bool :=
  allowed_extensions.contains (fileExtensionLower filename)

/-- `', '.join(allowed_extensions)` (one fixed iteration order of the
Python set literal). -/
def allowedJoined : String :=
  String.intercalate ", " allowed_extensions

/-- The 400 detail string of the extension rejection. -/
def unsupportedDetail (ext : String) : String :=
  "Unsupported file type: " ++ ext ++ ". Supported: " ++ allowedJoined

/-- A background task scheduled by `asyncio.create_task(
transcribe_audio_task(job_id, temp_file_path, language))`. -/
structure PendingTask where
  job_id : String
  file_path : String
  language : Option String
deriving DecidableEq

/-- State the upload endpoint touches: the job store and the scratch
filesystem. -/
structure ServerState where
  jobs : Store
  fs : FileSys

/-- Result of one call of a route handler: either an
`HTTPException` or a response, plus the state after the call and any
background task the call spawned. -/
structure UploadResult where
  response : Except HTTPError TranscriptionResponse
  state : ServerState
  spawned : Option PendingTask

/-- `POST /transcribe` (`transcribe_audio` in `main.py`).

Inputs the handler does not compute itself are parameters:
`modelLoaded` is whether `model` is not `None`; `jobId` is the
`str(uuid.uuid4())` the handler draws; `tempPath` is the name
`tempfile.NamedTemporaryFile` allocates; `writeOk` is whether reading
the upload and writing the temp file succeeded (its failure is the
`except` branch returning a 500).

Order of operations as in the source: model check, id generation,
extension check, temp-file write, record creation, task spawn,
response. -/
def transcribe_audio (modelLoaded : Bool) (filename : String)
    (language : Option String) (jobId : String) (tempPath : String)
    (writeOk : Bool) (st : ServerState) : UploadResult :=
  if !modelLoaded then
    { response := .error ⟨503, "Model not loaded"⟩, state := st, spawned := none }
  else
    let ext := fileExtensionLower filename
    if !allowed_extensions.contains ext then
      { response := .error ⟨400, unsupportedDetail ext⟩, state := st, spawned := none }
    else if !writeOk then
      { response := .error ⟨500, "Upload failed: write error"⟩, state := st, spawned := none }
    else
      let fs' := tempPath :: st.fs
      let jobs' := st.jobs.set jobId (newJob filename language)
      { response := .ok { job_id := jobId, status := "queued" }
        state := { jobs := jobs', fs := fs' }
        spawned := some ⟨jobId, tempPath, language⟩ }

/-- `GET /transcribe/{job_id}` (`get_transcription_status`). -/
def get_transcription_status (jobId : String) (st : ServerState) :
    Except HTTPError TranscriptionResponse :=
  match st.jobs jobId with
  | none => .error ⟨404, "Job not found"⟩
  | some j =>
    .ok { job_id := jobId
          status := match j.status with
            | .queued => "queued"
            | .processing => "processing"
            | .completed => "completed"
            | .error => "error"
          text := j.text
          segments := j.segments
          language := j.language
          error := j.error }

/-- `DELETE /transcribe/{job_id}` (`delete_transcription_job`). -/
def delete_transcription_job (jobId : String) (st : ServerState) :
    Except HTTPError String × ServerState :=
  match st.jobs jobId with
  | none => (.error ⟨404, "Job not found"⟩, st)
  | some _ => (.ok "Job deleted successfully", { st with jobs := st.jobs.erase jobId })

/-- Outcome of the blocking call `model.transcribe(file_path, ...)`
inside the background task.  `exn` is any failure that is an
`Exception` instance (matched by the `except Exception as e` clause,
recorded as `str(e)`); `cancelled` is `asyncio.CancelledError`, which
derives from `BaseException` and is NOT matched by that clause. -/
inductive CapResult where
  | ok (r : WhisperResult)
  | exn (msg : String)
  | cancelled
deriving DecidableEq

/-- An exception escaping the body of `transcribe_audio_task` (it is
absorbed by the task machinery / `asyncio.gather(...,
return_exceptions=True)`, never by the HTTP surface). -/
inductive TaskEscape where
  | keyError (key : String)
  | cancelledError
deriving DecidableEq

/-- Everything one run of the background task produces. -/
structure TaskRun where
  jobs : Store
  fs : FileSys
  removeCalls : Nat
  statusWrites : List Status
  escape : Option TaskEscape

/-- The `update` of the success path:
`{"status": "completed", "text": ..., "segments": ..., "language": ...}`
— one atomic dict update (the coroutine has no await between the
capability returning and this write). -/
def completeJob (r : WhisperResult) (j : Job) : Job :=
  { j with status := .completed
           text := some r.text
           segments := some r.segments
           language := some r.language }

/-- The `update` of the `except` path:
`{"status": "error", "error": str(e)}`. -/
def errorJob (msg : String) (j : Job) : Job :=
  { j with status := .error, error := some msg }

/-- The `except Exception` handler body: record the error on the job.
If the job id is gone from the store (deleted by a client before the
task ran) this very write raises `KeyError`, which nothing catches. -/
def runExceptHandler (jobId : String) (msg : String) (jobs : Store)
    (writes : List Status) : Store × List Status × Option TaskEscape :=
  match jobs.updateJob jobId (errorJob msg) with
  | none => (jobs, writes, some (.keyError jobId))
  | some jobs' => (jobs', writes ++ [.error], none)

/-- `transcribe_audio_task(job_id, file_path, language)` — the whole
`try/except/finally` body, given the outcome `cap` of the capability
call.  The coroutine has no await point, so the store is not mutated
by anyone else between its statements. -/
def transcribe_audio_task (jobId : String) (filePath : String)
    (cap : CapResult) (jobs : Store) (fs : FileSys) : TaskRun :=
  let tryResult : Store × List Status × Option TaskEscape :=
    match jobs.updateJob jobId (fun j => { j with status := .processing }) with
    | none =>
      -- `transcription_jobs[job_id]["status"] = "processing"` raised
      -- KeyError, an Exception, so control moves to the handler.
      runExceptHandler jobId ("KeyError: " ++ jobId) jobs []
    | some jobs1 =>
      match cap with
      | .ok r =>
        match jobs1.updateJob jobId (completeJob r) with
        | none =>
          -- the completed-update raised KeyError (an Exception):
          -- the handler runs, and its own write raises again.
          runExceptHandler jobId ("KeyError: " ++ jobId) jobs1 [Status.processing]
        | some jobs2 => (jobs2, [Status.processing, Status.completed], none)
      | .exn msg => runExceptHandler jobId msg jobs1 [Status.processing]
      | .cancelled =>
        -- CancelledError is not an Exception: the handler is skipped
        -- and the exception continues past the finally block.
        (jobs1, [Status.processing], some .cancelledError)
  let (jobs', writes, esc) := tryResult
  let (fs', removes) := cleanupTemp filePath fs
  { jobs := jobs', fs := fs', removeCalls := removes
    statusWrites := writes, escape := esc }

/-! ## Task registry and shutdown coordinator (`lifespan`, after `yield`) -/

/-- How one awaited background task settles: its coroutine returned,
raised an exception, or the task ended cancelled. -/
inductive SettleResult where
  | value
  | raised (msg : String)
  | wasCancelled
deriving DecidableEq

/-- A handle in `background_tasks_set` at shutdown time.  `done` is
`task.done()`; `outcome b` is how the task settles when awaited,
given whether `task.cancel()` was requested on it. -/
structure TaskHandle where
  done : Bool
  outcome : Bool → SettleResult

/-- Pass 1 of the shutdown block:
`for task in background_tasks_set: if not task.done(): task.cancel()`.
Pairs every handle with whether cancellation was requested on it. -/
def cancelPending (hs : List TaskHandle) : List (TaskHandle × Bool) :=
  hs.map (fun h => (h, !h.done))

/-- Pass 2: `await asyncio.gather(*background_tasks_set,
return_exceptions=True)`.  Every handle is awaited to the end; an
exception settles as a collected `SettleResult` instead of aborting
the remaining waits. -/
def gatherReturnExceptions : List (TaskHandle × Bool) → List SettleResult
  | [] => []
  | (h, c) :: rest => h.outcome c :: gatherReturnExceptions rest

/-- The whole shutdown half of `lifespan`: cancel what is still
running, then wait for everything to settle.  The function returns
(shutdown completes) only once every handle has a `SettleResult`. -/
def lifespanShutdown (hs : List TaskHandle) : List SettleResult :=
  gatherReturnExceptions (cancelPending hs)

/-! ## Store mutations over the server lifetime

Every mutation `main.py` performs on `transcription_jobs` is one of
the steps below.  The status guards record the single-writer
discipline of the source: a job is created `queued` by the one
request that drew its fresh uuid, and mutated only by the one
background task that request spawned, which writes `processing` on a
job it finds `queued` and a terminal status right after writing
`processing`, with no await point (hence no interleaved writer)
in between. -/

/-- One mutation of `transcription_jobs`. -/
inductive StoreStep : Store → Store → Prop where
  | create (s : Store) (id fn : String) (hint : Option String)
      (hfresh : s id = none) :
      StoreStep s (s.set id (newJob fn hint))
  | toProcessing (s : Store) (id : String) (j : Job)
      (hget : s id = some j) (hq : j.status = .queued) :
      StoreStep s (s.set id { j with status := .processing })
  | toCompleted (s : Store) (id : String) (j : Job) (r : WhisperResult)
      (hget : s id = some j) (hp : j.status = .processing) :
      StoreStep s (s.set id (completeJob r j))
  | toError (s : Store) (id : String) (j : Job) (msg : String)
      (hget : s id = some j) (hp : j.status = .processing) :
      StoreStep s (s.set id (errorJob msg j))
  | delete (s : Store) (id : String) :
      StoreStep s (s.erase id)

/-- Stores reachable from server start (`transcription_jobs = {}`)
by the mutations of `main.py`. -/
inductive Reachable : Store → Prop where
  | init : Reachable Store.empty
  | step {s t : Store} : Reachable s → StoreStep s t → Reachable t

/-! ## Per-job status trace -/

/-- The fate of the one background task a job's upload spawned.
`transcribe_audio_task` has no await point, so its body runs
atomically once started; the only interleaving window is before its
first step, where the task may be cancelled unstarted
(`neverStarted`) or a client `DELETE` may remove the job
(`deletedFirst`). -/
inductive TaskFate where
  | neverStarted
  | runs (deletedFirst : Bool) (cap : CapResult)

/-- Every status value written to one job's record across its
lifecycle: the endpoint creates it `"queued"`, then its task (if the
body ever starts) performs the writes `transcribe_audio_task`
records.  `others` is the rest of the store at creation time. -/
def jobStatusWrites (jobId path fn : String) (hint : Option String)
    (others : Store) (fs : FileSys) (fate : TaskFate) : List Status :=
  Status.queued ::
    match fate with
    | .neverStarted => []
    | .runs del cap =>
      let s0 := others.set jobId (newJob fn hint)
      let s1 := if del then s0.erase jobId else s0
      (transcribe_audio_task jobId path cap s1 fs).statusWrites

/-- The transitions of the job state machine:
`queued → processing → completed | error`. -/
def allowedTransition : Status → Status → Bool
  | .queued, .processing => true
  | .processing, .completed => true
  | .processing, .error => true
  | _, _ => false

/-- A terminal status. -/
def isTerminal : Status → Bool
  | .completed => true
  | .error => true
  | _ => false

/-- `needle` occurs contiguously in `hay`. -/
def strContains (hay needle : String) : Prop :=
  ∃ a b : String, hay = a ++ needle ++ b

/-- Claim C1 as stated by the spec: in every job record, `text`,
`segments` and `language` are populated only in `completed` status,
and `error` only in `error` status. -/
def resultFieldsOnlyInMatchingStatus (s : Store) : Prop :=
  ∀ id j, s id = some j →
    ((j.text ≠ none ∨ j.segments ≠ none ∨ j.language ≠ none) → j.status = .completed) ∧
    (j.error ≠ none → j.status = .error)

/-- C1, amended: `text` and `segments` are populated only in
`completed` status; a `completed` record has all three result fields
populated (they were stored in the same atomic update as the status
flip); `error` is populated exactly in `error` status; a `queued` or
`processing` record has no `text`, `segments` or `error` — but its
`language` field already holds the caller's hint, because the record
is created as `{"status": "queued", ..., "language": language}`. -/
def ResultFieldsInv (j : Job) : Prop :=
  ((j.text ≠ none ∨ j.segments ≠ none) → j.status = .completed) ∧
  (j.status = .completed → j.text ≠ none ∧ j.segments ≠ none ∧ j.language ≠ none) ∧
  (j.error ≠ none ↔ j.status = .error) ∧
  ((j.status = .queued ∨ j.status = .processing) →
    j.text = none ∧ j.segments = none ∧ j.error = none)

/-! ## Helper lemmas -/

theorem Store.get_set_self (s : Store) (k : String) (j : Job) :
    s.set k j k = some j := by
  simp [Store.set]

theorem Store.get_set_ne (s : Store) (k i : String) (j : Job) (h : i ≠ k) :
    s.set k j i = s i := by
  simp [Store.set, h]

theorem Store.get_erase_self (s : Store) (k : String) :
    s.erase k k = none := by
  simp [Store.erase]

theorem Store.get_erase_ne (s : Store) (k i : String) (h : i ≠ k) :
    s.erase k i = s i := by
  simp [Store.erase, h]

theorem charToNat_ofNat {n : Nat} (h : n.isValidChar) :
    (Char.ofNat n).toNat = n := by
  rw [Char.ofNat, dif_pos h]; rfl

/-- `Char.toLower` moves no character onto a codepoint below 'a';
in particular a character equals a non-letter like `'.'` or `'/'`
exactly when its lowercase form does. -/
theorem toLower_eq_iff (c d : Char) (hd : d.toNat < 65) :
    Char.toLower c = d ↔ c = d := by
  simp only [Char.toLower]
  split_ifs with h
  · constructor
    · intro hc
      have h1 : (Char.ofNat (c.toNat + 32)).toNat = c.toNat + 32 := by
        apply charToNat_ofNat; left; omega
      rw [hc] at h1
      omega
    · intro hc; subst hc; omega
  · exact Iff.rfl

theorem toLower_idem (c : Char) :
    Char.toLower (Char.toLower c) = Char.toLower c := by
  by_cases h : 65 ≤ c.toNat ∧ c.toNat ≤ 90
  · have hc : Char.toLower c = Char.ofNat (c.toNat + 32) := by
      simp only [Char.toLower]; rw [if_pos h]
    have h1 : (Char.ofNat (c.toNat + 32)).toNat = c.toNat + 32 := by
      apply charToNat_ofNat; left; omega
    rw [hc]
    simp only [Char.toLower]
    rw [if_neg (by omega)]
  · have hc : Char.toLower c = c := by
      simp only [Char.toLower]; rw [if_neg h]
    rw [hc, hc]

theorem decide_toLower_ne (d : Char) (hd : d.toNat < 65) :
    (fun c => decide (c ≠ d)) ∘ Char.toLower = fun c => decide (c ≠ d) := by
  funext c
  simp only [Function.comp_apply, decide_eq_decide, ne_eq]
  rw [toLower_eq_iff c d hd]

/-- Lowercasing commutes with extension extraction: `'.'` and `'/'`
are fixed points of `Char.toLower` and no character lowercases onto
them. -/
theorem splitext_map_toLower (p : List Char) :
    splitextExtChars (p.map Char.toLower) = (splitextExtChars p).map Char.toLower := by
  simp only [splitextExtChars]
  rw [← List.map_reverse]
  generalize p.reverse = q
  rw [List.takeWhile_map, decide_toLower_ne '/' (by decide)]
  generalize q.takeWhile (fun c => decide (c ≠ '/')) = base
  rw [List.takeWhile_map, decide_toLower_ne '.' (by decide)]
  generalize base.takeWhile (fun c => decide (c ≠ '.')) = afterDot
  rw [List.length_map, ← List.map_drop]
  generalize base.drop afterDot.length = rest
  cases rest with
  | nil => simp
  | cons x pre =>
    simp only [List.map_cons]
    rw [List.any_map, decide_toLower_ne '.' (by decide)]
    by_cases hp : pre.any (fun c => decide (c ≠ '.')) = true
    · rw [if_pos hp, if_pos hp]
      simp [List.map_reverse]
    · rw [if_neg hp, if_neg hp]
      simp

theorem strLower_idem (s : String) : strLower (strLower s) = strLower s := by
  simp only [strLower]
  congr 1
  rw [List.map_map]
  apply List.map_congr_left
  intro c _
  exact toLower_idem c

theorem fileExtensionLower_strLower (fn : String) :
    fileExtensionLower (strLower fn) = fileExtensionLower fn := by
  simp only [fileExtensionLower, splitextExt, strLower]
  congr 1
  rw [splitext_map_toLower, List.map_map]
  apply List.map_congr_left
  intro c _
  exact toLower_idem c

theorem strContains_middle (x y z : String) : strContains (x ++ y ++ z) y :=
  ⟨x, z, rfl⟩

theorem strContains_append_left (s t n : String) (h : strContains t n) :
    strContains (s ++ t) n := by
  obtain ⟨a, b, rfl⟩ := h
  exact ⟨s ++ a, b, by simp [String.append_assoc]⟩

theorem allowedJoined_contains :
    ∀ e ∈ allowed_extensions, strContains allowedJoined e := by
  intro e he
  simp only [allowed_extensions, List.mem_cons, List.not_mem_nil, or_false] at he
  have hj : allowedJoined =
      ".mp3, .wav, .m4a, .mp4, .avi, .mov, .flv, .wmv, .aac, .ogg" := by rfl
  rcases he with rfl | rfl | rfl | rfl | rfl | rfl | rfl | rfl | rfl | rfl
  · exact ⟨"", ", .wav, .m4a, .mp4, .avi, .mov, .flv, .wmv, .aac, .ogg", by rw [hj]; rfl⟩
  · exact ⟨".mp3, ", ", .m4a, .mp4, .avi, .mov, .flv, .wmv, .aac, .ogg", by rw [hj]; rfl⟩
  · exact ⟨".mp3, .wav, ", ", .mp4, .avi, .mov, .flv, .wmv, .aac, .ogg", by rw [hj]; rfl⟩
  · exact ⟨".mp3, .wav, .m4a, ", ", .avi, .mov, .flv, .wmv, .aac, .ogg", by rw [hj]; rfl⟩
  · exact ⟨".mp3, .wav, .m4a, .mp4, ", ", .mov, .flv, .wmv, .aac, .ogg", by rw [hj]; rfl⟩
  · exact ⟨".mp3, .wav, .m4a, .mp4, .avi, ", ", .flv, .wmv, .aac, .ogg", by rw [hj]; rfl⟩
  · exact ⟨".mp3, .wav, .m4a, .mp4, .avi, .mov, ", ", .wmv, .aac, .ogg", by rw [hj]; rfl⟩
  · exact ⟨".mp3, .wav, .m4a, .mp4, .avi, .mov, .flv, ", ", .aac, .ogg", by rw [hj]; rfl⟩
  · exact ⟨".mp3, .wav, .m4a, .mp4, .avi, .mov, .flv, .wmv, ", ", .ogg", by rw [hj]; rfl⟩
  · exact ⟨".mp3, .wav, .m4a, .mp4, .avi, .mov, .flv, .wmv, .aac, ", "", by rw [hj]; rfl⟩

theorem Store.set_set (s : Store) (k : String) (a b : Job) :
    (s.set k a).set k b = s.set k b := by
  funext i
  simp only [Store.set]
  split <;> rfl

/-- Evaluation of the background task when its job id is absent from
the store (deleted before the task's first step): the `processing`
write raises `KeyError`, the handler's `error` write raises again,
the `finally` still runs, and the store is untouched. -/
theorem task_run_none (jobId path : String) (cap : CapResult)
    (jobs : Store) (fs : FileSys) (h : jobs jobId = none) :
    transcribe_audio_task jobId path cap jobs fs =
      { jobs := jobs, fs := (cleanupTemp path fs).1,
        removeCalls := (cleanupTemp path fs).2,
        statusWrites := [], escape := some (.keyError jobId) } := by
  simp [transcribe_audio_task, runExceptHandler, Store.updateJob, h]

/-- Evaluation of the background task on a successful capability
call. -/
theorem task_run_ok (jobId path : String) (r : WhisperResult)
    (jobs : Store) (fs : FileSys) (j : Job) (h : jobs jobId = some j) :
    transcribe_audio_task jobId path (.ok r) jobs fs =
      { jobs := jobs.set jobId
          { j with status := .completed, text := some r.text,
                   segments := some r.segments, language := some r.language },
        fs := (cleanupTemp path fs).1,
        removeCalls := (cleanupTemp path fs).2,
        statusWrites := [.processing, .completed], escape := none } := by
  simp only [transcribe_audio_task, Store.updateJob, h, Store.get_set_self,
    completeJob, Store.set_set]

/-- Evaluation of the background task when the capability raises an
`Exception` with message `msg`. -/
theorem task_run_exn (jobId path msg : String)
    (jobs : Store) (fs : FileSys) (j : Job) (h : jobs jobId = some j) :
    transcribe_audio_task jobId path (.exn msg) jobs fs =
      { jobs := jobs.set jobId { j with status := .error, error := some msg },
        fs := (cleanupTemp path fs).1,
        removeCalls := (cleanupTemp path fs).2,
        statusWrites := [.processing, .error], escape := none } := by
  simp only [transcribe_audio_task, Store.updateJob, h, runExceptHandler,
    Store.get_set_self, errorJob, Store.set_set, List.cons_append, List.nil_append]

/-- Evaluation of the background task when the capability call ends
in `asyncio.CancelledError`. -/
theorem task_run_cancelled (jobId path : String)
    (jobs : Store) (fs : FileSys) (j : Job) (h : jobs jobId = some j) :
    transcribe_audio_task jobId path .cancelled jobs fs =
      { jobs := jobs.set jobId { j with status := .processing },
        fs := (cleanupTemp path fs).1,
        removeCalls := (cleanupTemp path fs).2,
        statusWrites := [.processing], escape := some .cancelledError } := by
  simp only [transcribe_audio_task, Store.updateJob, h]

/-! ## Claim theorems -/

/-- C8: whenever the transcription capability has not finished
initializing (`model` is `None`), `POST /transcribe` returns a 503
error before doing any other work: the state is untouched, no job
record is created and no task is spawned. -/
theorem model_not_loaded_503
    (fn : String) (hint : Option String) (jobId tempPath : String)
    (writeOk : Bool) (st : ServerState) :
    transcribe_audio false fn hint jobId tempPath writeOk st =
      { response := .error ⟨503, "Model not loaded"⟩, state := st, spawned := none } :=
  rfl

/-- C5: an upload whose (lowercased) extension is not in the
allow-list is rejected with a 400 error whose detail carries the
offending extension and every allowed extension; the job store and
the filesystem are unchanged and no task is spawned. -/
theorem unsupported_extension_rejected
    (fn : String) (hint : Option String) (jobId tempPath : String)
    (writeOk : Bool) (st : ServerState)
    (hext : extensionAllowed fn = false) :
    (transcribe_audio true fn hint jobId tempPath writeOk st).response =
        .error ⟨400, unsupportedDetail (fileExtensionLower fn)⟩ ∧
    (transcribe_audio true fn hint jobId tempPath writeOk st).state.jobs = st.jobs ∧
    (transcribe_audio true fn hint jobId tempPath writeOk st).state.fs = st.fs ∧
    (transcribe_audio true fn hint jobId tempPath writeOk st).spawned = none ∧
    strContains (unsupportedDetail (fileExtensionLower fn)) (fileExtensionLower fn) ∧
    (∀ e ∈ allowed_extensions,
      strContains (unsupportedDetail (fileExtensionLower fn)) e) := by
  have hc : allowed_extensions.contains (fileExtensionLower fn) = false := hext
  have hm : ¬ (fileExtensionLower fn ∈ allowed_extensions) := by simpa using hc
  refine ⟨?_, ?_, ?_, ?_, ?_, ?_⟩
  · simp [transcribe_audio, hm]
  · simp [transcribe_audio, hm]
  · simp [transcribe_audio, hm]
  · simp [transcribe_audio, hm]
  · exact ⟨"Unsupported file type: ", ". Supported: " ++ allowedJoined,
      by simp [unsupportedDetail, String.append_assoc]⟩
  · intro e he
    have h1 : strContains (". Supported: " ++ allowedJoined) e :=
      strContains_append_left _ _ _ (allowedJoined_contains e he)
    have h2 : strContains (fileExtensionLower fn ++ (". Supported: " ++ allowedJoined)) e :=
      strContains_append_left _ _ _ h1
    have h3 := strContains_append_left "Unsupported file type: " _ _ h2
    simpa [unsupportedDetail, String.append_assoc] using h3

/-- C6: an upload with a supported extension, when the model is
loaded, the id is fresh and the temp write succeeds, immediately gets
the response `{job_id, status:"queued"}`, and the store afterwards
maps that id to a queued record holding the original filename and
the caller's language hint; no other id is touched and the
background task for this job is spawned. -/
theorem supported_upload_creates_queued_job
    (fn : String) (hint : Option String) (jobId tempPath : String) (st : ServerState)
    (hext : extensionAllowed fn = true)
    (hfresh : st.jobs jobId = none) :
    (transcribe_audio true fn hint jobId tempPath true st).response =
        .ok { job_id := jobId, status := "queued" } ∧
    st.jobs jobId = none ∧
    (transcribe_audio true fn hint jobId tempPath true st).state.jobs jobId =
        some (newJob fn hint) ∧
    (newJob fn hint).status = .queued ∧
    (newJob fn hint).filename = fn ∧
    (newJob fn hint).language = hint ∧
    (∀ k, k ≠ jobId →
      (transcribe_audio true fn hint jobId tempPath true st).state.jobs k = st.jobs k) ∧
    (transcribe_audio true fn hint jobId tempPath true st).spawned =
        some ⟨jobId, tempPath, hint⟩ := by
  have hc : allowed_extensions.contains (fileExtensionLower fn) = true := hext
  have hm : fileExtensionLower fn ∈ allowed_extensions := by simpa using hc
  refine ⟨?_, hfresh, ?_, rfl, rfl, rfl, ?_, ?_⟩
  · simp [transcribe_audio, hm]
  · simp [transcribe_audio, hm, Store.get_set_self]
  · intro k hk
    simp [transcribe_audio, hm, Store.get_set_ne _ _ _ _ hk]
  · simp [transcribe_audio, hm]

/-- C6 witness: a concrete supported upload. -/
theorem supported_upload_creates_queued_job_witness :
    (transcribe_audio true "clip.wav" (some "en") "job-1" "/tmp/t1" true
        ⟨Store.empty, []⟩).response = .ok { job_id := "job-1", status := "queued" } ∧
    (transcribe_audio true "clip.wav" (some "en") "job-1" "/tmp/t1" true
        ⟨Store.empty, []⟩).state.jobs "job-1" = some (newJob "clip.wav" (some "en")) :=
  ⟨(supported_upload_creates_queued_job "clip.wav" (some "en") "job-1" "/tmp/t1"
      ⟨Store.empty, []⟩ (by decide) rfl).1,
   (supported_upload_creates_queued_job "clip.wav" (some "en") "job-1" "/tmp/t1"
      ⟨Store.empty, []⟩ (by decide) rfl).2.2.1⟩

/-- C5 witness: a concrete unsupported upload (`clip.xyz`). -/
theorem unsupported_extension_rejected_witness :
    (transcribe_audio true "clip.xyz" none "job-1" "/tmp/t1" true
        ⟨Store.empty, []⟩).response =
      .error ⟨400, unsupportedDetail (fileExtensionLower "clip.xyz")⟩ ∧
    (transcribe_audio true "clip.xyz" none "job-1" "/tmp/t1" true
        ⟨Store.empty, []⟩).spawned = none :=
  ⟨(unsupported_extension_rejected "clip.xyz" none "job-1" "/tmp/t1" true
      ⟨Store.empty, []⟩ (by decide)).1,
   (unsupported_extension_rejected "clip.xyz" none "job-1" "/tmp/t1" true
      ⟨Store.empty, []⟩ (by decide)).2.2.2.1⟩

/-- C1 counterexample: the store holding exactly one freshly created
job, uploaded with the language hint `"en"`, is reachable, and it
violates the claim as stated: the record is `queued` yet its
`language` field is populated (with the hint). -/
theorem queued_job_carries_language_hint :
    Reachable (Store.empty.set "job-1" (newJob "talk.mp3" (some "en"))) ∧
    (Store.empty.set "job-1" (newJob "talk.mp3" (some "en"))) "job-1" =
      some { status := .queued, filename := "talk.mp3", language := some "en",
             text := none, segments := none, error := none } ∧
    ¬ resultFieldsOnlyInMatchingStatus
        (Store.empty.set "job-1" (newJob "talk.mp3" (some "en"))) := by
  refine ⟨?_, ?_, ?_⟩
  · exact Reachable.step Reachable.init
      (StoreStep.create Store.empty "job-1" "talk.mp3" (some "en") rfl)
  · exact Store.get_set_self ..
  · intro hcl
    have h := hcl "job-1" (newJob "talk.mp3" (some "en")) (Store.get_set_self ..)
    have hq := h.1 (by right; right; simp [newJob])
    simp [newJob] at hq

/-- C1 (amended): every reachable store satisfies the amended
result-field invariant on each of its records. -/
theorem result_fields_invariant (s : Store) (hs : Reachable s) :
    ∀ id j, s id = some j → ResultFieldsInv j := by
  induction hs with
  | init =>
    intro k j hget
    exact absurd hget (by simp [Store.empty])
  | step hr hstep ih =>
    intro k j hget
    cases hstep with
    | create id fn hint hfresh =>
      by_cases hid : k = id
      · subst hid
        rw [Store.get_set_self] at hget
        cases hget
        simp [ResultFieldsInv, newJob]
      · rw [Store.get_set_ne _ _ _ _ hid] at hget
        exact ih k j hget
    | toProcessing id j' hget' hq =>
      by_cases hid : k = id
      · subst hid
        rw [Store.get_set_self] at hget
        cases hget
        have hinv := ih k j' hget'
        obtain ⟨ht, hseg, herr⟩ := hinv.2.2.2 (Or.inl hq)
        simp [ResultFieldsInv, ht, hseg, herr]
      · rw [Store.get_set_ne _ _ _ _ hid] at hget
        exact ih k j hget
    | toCompleted id j' r hget' hp =>
      by_cases hid : k = id
      · subst hid
        rw [Store.get_set_self] at hget
        cases hget
        have hinv := ih k j' hget'
        obtain ⟨ht, hseg, herr⟩ := hinv.2.2.2 (Or.inr hp)
        simp [ResultFieldsInv, completeJob, herr]
      · rw [Store.get_set_ne _ _ _ _ hid] at hget
        exact ih k j hget
    | toError id j' msg hget' hp =>
      by_cases hid : k = id
      · subst hid
        rw [Store.get_set_self] at hget
        cases hget
        have hinv := ih k j' hget'
        obtain ⟨ht, hseg, herr⟩ := hinv.2.2.2 (Or.inr hp)
        simp [ResultFieldsInv, errorJob, ht, hseg]
      · rw [Store.get_set_ne _ _ _ _ hid] at hget
        exact ih k j hget
    | delete id =>
      by_cases hid : k = id
      · subst hid
        rw [Store.get_erase_self] at hget
        exact absurd hget (by simp)
      · rw [Store.get_erase_ne _ _ _ hid] at hget
        exact ih k j hget

/-- C1 witness: the amended invariant, instantiated at a concrete
reachable store. -/
theorem result_fields_invariant_witness :
    ResultFieldsInv (newJob "talk.mp3" none) :=
  result_fields_invariant (Store.empty.set "job-1" (newJob "talk.mp3" none))
    (Reachable.step Reachable.init
      (StoreStep.create Store.empty "job-1" "talk.mp3" none rfl))
    "job-1" (newJob "talk.mp3" none) (Store.get_set_self ..)

/-- C2 counterexample: when the capability call ends in cancellation
(`asyncio.CancelledError`), the `except Exception` clause does not
match it: at this concrete input the job is left in `processing`
with no error message — not recorded as `status = error` as the
claim states — and the exception leaves the body of the background
execution. -/
theorem cancellation_left_in_processing :
    (transcribe_audio_task "job-1" "/tmp/t1" .cancelled
        (Store.empty.set "job-1" (newJob "talk.mp3" none)) ["/tmp/t1"]).jobs "job-1" =
      some { status := .processing, filename := "talk.mp3", language := none,
             text := none, segments := none, error := none } ∧
    ((transcribe_audio_task "job-1" "/tmp/t1" .cancelled
        (Store.empty.set "job-1" (newJob "talk.mp3" none)) ["/tmp/t1"]).jobs "job-1").map
      Job.status ≠ some Status.error ∧
    (transcribe_audio_task "job-1" "/tmp/t1" .cancelled
        (Store.empty.set "job-1" (newJob "talk.mp3" none)) ["/tmp/t1"]).escape =
      some .cancelledError := by
  refine ⟨?_, ?_, ?_⟩ <;> decide

/-- C2 (amended): a capability failure that is an `Exception`
instance is caught at the boundary of the background execution,
recorded as `status = "error"` with the exception's message, and
nothing escapes the body; cancellation is not recorded on the job
(it stays `processing`) — the `CancelledError` leaves the body and
is absorbed by the task machinery, not by the HTTP surface. -/
theorem capability_failure_contained (jobId path msg : String)
    (jobs : Store) (fs : FileSys) (j : Job) (h : jobs jobId = some j) :
    (transcribe_audio_task jobId path (.exn msg) jobs fs).jobs jobId =
        some { j with status := .error, error := some msg } ∧
    (transcribe_audio_task jobId path (.exn msg) jobs fs).escape = none ∧
    (transcribe_audio_task jobId path .cancelled jobs fs).jobs jobId =
        some { j with status := .processing } ∧
    (transcribe_audio_task jobId path .cancelled jobs fs).escape =
        some .cancelledError := by
  rw [task_run_exn jobId path msg jobs fs j h, task_run_cancelled jobId path jobs fs j h]
  exact ⟨Store.get_set_self .., rfl, Store.get_set_self .., rfl⟩

/-- C2 witness for the amended theorem at a concrete input. -/
theorem capability_failure_contained_witness :
    (transcribe_audio_task "job-1" "/tmp/t1" (.exn "boom")
        (Store.empty.set "job-1" (newJob "talk.mp3" none)) ["/tmp/t1"]).jobs "job-1" =
      some { newJob "talk.mp3" none with status := .error, error := some "boom" } :=
  (capability_failure_contained "job-1" "/tmp/t1" "boom"
    (Store.empty.set "job-1" (newJob "talk.mp3" none)) ["/tmp/t1"]
    (newJob "talk.mp3" none) (Store.get_set_self ..)).1

/-- C3: the temp file written by a supported upload is deleted by
the `finally` block exactly once, on every exit path of the task body
(success, `Exception` failure, or cancellation); after the run it is
absent from scratch storage, and a second defensive cleanup attempt
is stopped by the existence check and removes nothing. -/
theorem temp_file_deleted_exactly_once
    (fn : String) (hint : Option String) (jobId tempPath : String)
    (st : ServerState) (cap : CapResult)
    (hext : extensionAllowed fn = true)
    (hpath : st.fs.contains tempPath = false) :
    (transcribe_audio true fn hint jobId tempPath true st).state.fs.contains tempPath
        = true ∧
    (transcribe_audio_task jobId tempPath cap
        (transcribe_audio true fn hint jobId tempPath true st).state.jobs
        (transcribe_audio true fn hint jobId tempPath true st).state.fs).removeCalls = 1 ∧
    (transcribe_audio_task jobId tempPath cap
        (transcribe_audio true fn hint jobId tempPath true st).state.jobs
        (transcribe_audio true fn hint jobId tempPath true st).state.fs).fs.contains
        tempPath = false ∧
    cleanupTemp tempPath
        (transcribe_audio_task jobId tempPath cap
          (transcribe_audio true fn hint jobId tempPath true st).state.jobs
          (transcribe_audio true fn hint jobId tempPath true st).state.fs).fs =
      ((transcribe_audio_task jobId tempPath cap
          (transcribe_audio true fn hint jobId tempPath true st).state.jobs
          (transcribe_audio true fn hint jobId tempPath true st).state.fs).fs, 0) := by
  have hc0 : allowed_extensions.contains (fileExtensionLower fn) = true := hext
  have hm : fileExtensionLower fn ∈ allowed_extensions := by simpa using hc0
  have hnm : tempPath ∉ st.fs := by simpa using hpath
  have hup : (transcribe_audio true fn hint jobId tempPath true st).state =
      { jobs := st.jobs.set jobId (newJob fn hint), fs := tempPath :: st.fs } := by
    simp [transcribe_audio, hm]
  have hclean : cleanupTemp tempPath (tempPath :: st.fs) = (st.fs, 1) := by
    simp only [cleanupTemp, FileSys.exists, FileSys.remove]
    rw [if_pos (by simp)]
    simp [List.erase_cons_head]
  have hfs : (transcribe_audio_task jobId tempPath cap
      (transcribe_audio true fn hint jobId tempPath true st).state.jobs
      (transcribe_audio true fn hint jobId tempPath true st).state.fs).fs = st.fs ∧
      (transcribe_audio_task jobId tempPath cap
      (transcribe_audio true fn hint jobId tempPath true st).state.jobs
      (transcribe_audio true fn hint jobId tempPath true st).state.fs).removeCalls = 1 := by
    rw [hup]
    cases cap with
    | ok r =>
      rw [task_run_ok jobId tempPath r _ _ (newJob fn hint) (Store.get_set_self ..)]
      simp [hclean]
    | exn msg =>
      rw [task_run_exn jobId tempPath msg _ _ (newJob fn hint) (Store.get_set_self ..)]
      simp [hclean]
    | cancelled =>
      rw [task_run_cancelled jobId tempPath _ _ (newJob fn hint) (Store.get_set_self ..)]
      simp [hclean]
  refine ⟨by rw [hup]; simp, hfs.2, ?_, ?_⟩
  · rw [hfs.1]; exact hpath
  · rw [hfs.1]
    simp only [cleanupTemp, FileSys.exists]
    rw [if_neg (by simpa using hnm)]

/-- C3 witness at a concrete upload and a concrete run. -/
theorem temp_file_deleted_exactly_once_witness :
    (transcribe_audio_task "job-1" "/tmp/t1" (.exn "boom")
        (transcribe_audio true "clip.mp3" none "job-1" "/tmp/t1" true
          ⟨Store.empty, []⟩).state.jobs
        (transcribe_audio true "clip.mp3" none "job-1" "/tmp/t1" true
          ⟨Store.empty, []⟩).state.fs).removeCalls = 1 ∧
    (transcribe_audio_task "job-1" "/tmp/t1" (.exn "boom")
        (transcribe_audio true "clip.mp3" none "job-1" "/tmp/t1" true
          ⟨Store.empty, []⟩).state.jobs
        (transcribe_audio true "clip.mp3" none "job-1" "/tmp/t1" true
          ⟨Store.empty, []⟩).state.fs).fs.contains "/tmp/t1" = false :=
  ⟨(temp_file_deleted_exactly_once "clip.mp3" none "job-1" "/tmp/t1"
      ⟨Store.empty, []⟩ (.exn "boom") (by decide) (by decide)).2.1,
   (temp_file_deleted_exactly_once "clip.mp3" none "job-1" "/tmp/t1"
      ⟨Store.empty, []⟩ (.exn "boom") (by decide) (by decide)).2.2.1⟩

/-- C10: when the job id has been deleted from the store before the
task body ran, the task's first store write raises a `KeyError` (and
so does the error-recording write in the handler): the task finishes
with no status ever written, no terminal state recorded, the store
untouched — and the temp file is still deleted by the `finally`
block. -/
theorem deleted_job_no_terminal_state (jobId path : String)
    (cap : CapResult) (jobs : Store) (fs : FileSys)
    (h : jobs jobId = none) :
    (transcribe_audio_task jobId path cap jobs fs).jobs = jobs ∧
    (transcribe_audio_task jobId path cap jobs fs).statusWrites = [] ∧
    (transcribe_audio_task jobId path cap jobs fs).escape =
        some (.keyError jobId) ∧
    (transcribe_audio_task jobId path cap jobs fs).fs = fs.erase path ∧
    (fs.contains path = true →
      (transcribe_audio_task jobId path cap jobs fs).removeCalls = 1) := by
  rw [task_run_none jobId path cap jobs fs h]
  refine ⟨rfl, rfl, rfl, ?_, ?_⟩
  · simp only [cleanupTemp, FileSys.exists, FileSys.remove]
    split
    · rfl
    · rename_i hc
      rw [List.erase_of_not_mem (by simpa using hc)]
  · intro hc
    have hmem : path ∈ fs := by simpa using hc
    simp [cleanupTemp, FileSys.exists, hmem]

/-- C10 witness: a concrete deleted-mid-flight run. -/
theorem deleted_job_no_terminal_state_witness :
    (transcribe_audio_task "job-1" "/tmp/t1" (.ok ⟨"hi", [], "en"⟩)
        Store.empty ["/tmp/t1"]).statusWrites = [] ∧
    (transcribe_audio_task "job-1" "/tmp/t1" (.ok ⟨"hi", [], "en"⟩)
        Store.empty ["/tmp/t1"]).escape = some (.keyError "job-1") :=
  ⟨(deleted_job_no_terminal_state "job-1" "/tmp/t1" (.ok ⟨"hi", [], "en"⟩)
      Store.empty ["/tmp/t1"] rfl).2.1,
   (deleted_job_no_terminal_state "job-1" "/tmp/t1" (.ok ⟨"hi", [], "en"⟩)
      Store.empty ["/tmp/t1"] rfl).2.2.1⟩

/-- C4: in every fate of a job's background task — never started,
job deleted before the first step, capability success, capability
`Exception`, cancellation mid-call — the sequence of status values
written to the job's record starts at `queued`, every consecutive
pair is a transition of `queued → processing → completed|error`
(nothing skips `processing`, nothing reverts), and a terminal status
is only ever the last write. -/
theorem status_writes_follow_state_machine (jobId path fn : String)
    (hint : Option String) (others : Store) (fs : FileSys) (fate : TaskFate) :
    (jobStatusWrites jobId path fn hint others fs fate).head? = some .queued ∧
    List.Chain' (fun a b => allowedTransition a b = true)
      (jobStatusWrites jobId path fn hint others fs fate) ∧
    (∀ i : Fin (jobStatusWrites jobId path fn hint others fs fate).length,
      isTerminal ((jobStatusWrites jobId path fn hint others fs fate).get i) = true →
      i.val + 1 = (jobStatusWrites jobId path fn hint others fs fate).length) := by
  cases fate with
  | neverStarted =>
    have hw : jobStatusWrites jobId path fn hint others fs .neverStarted =
        [Status.queued] := rfl
    rw [hw]
    exact ⟨rfl, by simp [List.chain'_singleton], by decide⟩
  | runs del cap =>
    cases del with
    | true =>
      have hw : jobStatusWrites jobId path fn hint others fs (.runs true cap) =
          [Status.queued] := by
        show Status.queued :: (transcribe_audio_task jobId path cap
          ((others.set jobId (newJob fn hint)).erase jobId) fs).statusWrites = _
        rw [task_run_none jobId path cap _ fs (Store.get_erase_self ..)]
      rw [hw]
      exact ⟨rfl, by simp [List.chain'_singleton], by decide⟩
    | false =>
      have hget : (others.set jobId (newJob fn hint)) jobId = some (newJob fn hint) :=
        Store.get_set_self ..
      cases cap with
      | ok r =>
        have hw : jobStatusWrites jobId path fn hint others fs (.runs false (.ok r)) =
            [Status.queued, Status.processing, Status.completed] := by
          show Status.queued :: (transcribe_audio_task jobId path (.ok r)
            (others.set jobId (newJob fn hint)) fs).statusWrites = _
          rw [task_run_ok jobId path r _ fs (newJob fn hint) hget]
        rw [hw]
        exact ⟨rfl, by simp [List.chain'_cons, List.chain'_singleton, allowedTransition],
          by decide⟩
      | exn msg =>
        have hw : jobStatusWrites jobId path fn hint others fs (.runs false (.exn msg)) =
            [Status.queued, Status.processing, Status.error] := by
          show Status.queued :: (transcribe_audio_task jobId path (.exn msg)
            (others.set jobId (newJob fn hint)) fs).statusWrites = _
          rw [task_run_exn jobId path msg _ fs (newJob fn hint) hget]
        rw [hw]
        exact ⟨rfl, by simp [List.chain'_cons, List.chain'_singleton, allowedTransition],
          by decide⟩
      | cancelled =>
        have hw : jobStatusWrites jobId path fn hint others fs (.runs false .cancelled) =
            [Status.queued, Status.processing] := by
          show Status.queued :: (transcribe_audio_task jobId path .cancelled
            (others.set jobId (newJob fn hint)) fs).statusWrites = _
          rw [task_run_cancelled jobId path _ fs (newJob fn hint) hget]
        rw [hw]
        exact ⟨rfl, by simp [List.chain'_cons, List.chain'_singleton, allowedTransition],
          by decide⟩

/-- C7: after the shutdown block of `lifespan` runs, every handle in
the registry has settled (the result list covers the whole set in
order), cancellation was requested exactly on the handles that had
not finished, and a handle settling in failure does not abort the
wait for the others.  Shutdown completes only after this list is
fully produced. -/
theorem shutdown_waits_for_all_tasks (hs : List TaskHandle) :
    (lifespanShutdown hs).length = hs.length ∧
    (∀ i : Fin hs.length,
      (lifespanShutdown hs).get ⟨i.val, by
        have hl : ∀ t : List TaskHandle, (lifespanShutdown t).length = t.length := by
          intro t
          induction t with
          | nil => rfl
          | cons h rest ih =>
            show (h.outcome (!h.done) :: lifespanShutdown rest).length = rest.length + 1
            rw [List.length_cons, ih]
        rw [hl hs]; exact i.isLt⟩ =
      (hs.get i).outcome (!(hs.get i).done)) := by
  have hlen : ∀ t : List TaskHandle, (lifespanShutdown t).length = t.length := by
    intro t
    induction t with
    | nil => rfl
    | cons h rest ih =>
      show (h.outcome (!h.done) :: lifespanShutdown rest).length = rest.length + 1
      rw [List.length_cons, ih]
  refine ⟨hlen hs, ?_⟩
  intro i
  induction hs with
  | nil => exact absurd i.isLt (by simp)
  | cons h rest ih =>
    match i with
    | ⟨0, _⟩ => rfl
    | ⟨Nat.succ n, hn⟩ =>
      have hrec := ih ⟨n, by simpa using hn⟩
      exact hrec

/-- C9: the extension check is case-insensitive: a filename is
accepted exactly as its fully lowercased spelling would be, and the
mixed-case spellings `.MP3` and `.Wav` are accepted like `.mp3` and
`.wav`. -/
theorem extension_check_case_insensitive :
    (∀ fn : String, extensionAllowed (strLower fn) = extensionAllowed fn) ∧
    extensionAllowed "clip.MP3" = true ∧
    extensionAllowed "clip.Wav" = true ∧
    extensionAllowed "clip.mp3" = true ∧
    extensionAllowed "clip.wav" = true := by
  refine ⟨fun fn => ?_, by decide, by decide, by decide, by decide⟩
  simp only [extensionAllowed, fileExtensionLower_strLower]

end AudioTranscriber
